import Mathlib

/-!
Verification of the memory-management core of the xv6-derived teaching
kernel: the physical page allocator with per-page reference counting and
copy-on-write support (kernel/kalloc.c), and the hash-bucketed disk buffer
cache with timestamp-based eviction (kernel/bio.c).

The embedding is sequential: spinlocks and sleep-locks only serialize the
critical sections in the C source, so every operation is modelled as an
atomic transformation of the shared state.  Machine integers are modelled
as Nat (for unsigned quantities, with explicit mod 2^32 where the source
relies on unsigned wraparound) and Int (for the C int reference counts).
-/

namespace KAlloc

/-- Size of a page in bytes (PGSIZE in riscv.h). -/
def PGSIZE : Nat := 4096

/-- Base address of physical memory (KERNBASE in memlayout.h). -/
def KERNBASE : Nat := 0x80000000

/-- Layout parameters supplied by the linker and memlayout.h: the symbol
end (first address after the kernel image) and PHYSTOP (one past the top
of usable physical memory). -/
structure KCfg where
  kernend : Nat
  PHYSTOP : Nat

/-- Index of a physical address in the page reference table:
PA2PGREF_ID(p) = ((p) - KERNBASE) / PGSIZE. -/
def PA2PGREF_ID (pa : Nat) : Nat := (pa - KERNBASE) / PGSIZE

/-- Number of entries of the reference table:
PGREF_MAX_ENTRIES = PA2PGREF_ID(PHYSTOP). -/
def PGREF_MAX_ENTRIES (c : KCfg) : Nat := PA2PGREF_ID c.PHYSTOP

/-- Rounding an address down to its page boundary (PGROUNDDOWN). -/
def PGROUNDDOWN (a : Nat) : Nat := a / PGSIZE * PGSIZE

/-- Rounding an address up to the next page boundary (PGROUNDUP). -/
def PGROUNDUP (a : Nat) : Nat := (a + PGSIZE - 1) / PGSIZE * PGSIZE

/-- Pointwise update of a table modelled as a function. -/
def upd {α : Type} (f : Nat → α) (i : Nat) (v : α) : Nat → α :=
  fun j => if j = i then v else f j

/-- State of the allocator: the free list (head = kmem.freelist, with the
intrusive run links of the C code modelled as a list of page addresses),
the reference counts page_ref_list[i].cnt (C int, hence Int), and page
payloads, page index -> byte offset -> byte value. -/
structure KState where
  freelist : List Nat
  pageRef : Nat → Int
  mem : Nat → Nat → Nat

instance : Inhabited KState :=
  ⟨{ freelist := [], pageRef := fun _ => 0, mem := fun _ _ => 0 }⟩

/-- Condition under which kfree panics:
pa % PGSIZE != 0 || (char*)pa < end || pa >= PHYSTOP. -/
def kfreeInvalid (c : KCfg) (pa : Nat) : Prop :=
  pa % PGSIZE ≠ 0 ∨ pa < c.kernend ∨ c.PHYSTOP ≤ pa

instance (c : KCfg) (pa : Nat) : Decidable (kfreeInvalid c pa) := by
  unfold kfreeInvalid; infer_instance

/-- Model of kfree (kalloc.c).  Returns none when the C code panics.
Otherwise decrements the page's reference count; if the result is still
positive it returns at once, else it fills the page with the junk byte 1
and pushes the frame onto the head of the free list. -/
def kfree (c : KCfg) (s : KState) (pa : Nat) : Option KState :=
  if kfreeInvalid c pa then none
  else if 0 < s.pageRef (PA2PGREF_ID pa) - 1 then
    some { s with
           pageRef := upd s.pageRef (PA2PGREF_ID pa) (s.pageRef (PA2PGREF_ID pa) - 1) }
  else
    some { freelist := pa :: s.freelist
           pageRef := upd s.pageRef (PA2PGREF_ID pa) (s.pageRef (PA2PGREF_ID pa) - 1)
           mem := upd s.mem (PA2PGREF_ID pa) (fun _ => 1) }

/-- Model of kalloc (kalloc.c).  Pops the head of the free list; on
success fills the page with the junk byte 5 and sets its reference count
to 1.  Returns (none, s) when the free list is empty. -/
def kalloc (s : KState) : Option Nat × KState :=
  match s.freelist with
  | [] => (none, s)
  | r :: rest =>
      (some r,
       { freelist := rest
         pageRef := upd s.pageRef (PA2PGREF_ID r) 1
         mem := upd s.mem (PA2PGREF_ID r) (fun _ => 5) })

/-- Model of krefpage (kalloc.c): returns -1 on an invalid address,
otherwise increments the page's reference count and returns 1. -/
def krefpage (c : KCfg) (s : KState) (pa : Nat) : Int × KState :=
  if kfreeInvalid c pa then (-1, s)
  else
    (1, { s with
          pageRef := upd s.pageRef (PA2PGREF_ID pa)
                       (s.pageRef (PA2PGREF_ID pa) + 1) })

/-- Boot-time state before freerange: kinit sets every reference count
below PGREF_MAX_ENTRIES to 1; C globals start zeroed. -/
def initState (c : KCfg) : KState :=
  { freelist := []
    pageRef := fun i => if i < PGREF_MAX_ENTRIES c then 1 else 0
    mem := fun _ _ => 0 }

/-- Addresses freed by freerange(end, PHYSTOP): pages p starting at
PGROUNDUP(end) with p + PGSIZE <= PHYSTOP, in increasing order. -/
def freerangeList (c : KCfg) : List Nat :=
  (List.range ((c.PHYSTOP - PGROUNDUP c.kernend) / PGSIZE)).map
    (fun i => PGROUNDUP c.kernend + i * PGSIZE)

/-- Model of kinit: initialize the reference table, then freerange, which
calls kfree on every whole page between end and PHYSTOP.  none would mean
one of those kfree calls panicked. -/
def kinit (c : KCfg) : Option KState :=
  (freerangeList c).foldl
    (fun os pa => os.bind (fun s => kfree c s pa)) (some (initState c))

/-- State after n successive kalloc calls (results discarded). -/
def kallocDrain : Nat → KState → KState
  | 0, s => s
  | n + 1, s => kallocDrain n (kalloc s).2

/-- State after k successive krefpage calls on the same address. -/
def krefN (c : KCfg) : Nat → KState → Nat → KState
  | 0, s, _ => s
  | k + 1, s, pa => krefN c k (krefpage c s pa).2 pa

/-- State after n successive kfree calls on the same address; none as
soon as one of them panics. -/
def kfreeN (c : KCfg) : Nat → KState → Nat → Option KState
  | 0, s, _ => some s
  | n + 1, s, pa => (kfree c s pa).bind (fun t => kfreeN c n t pa)

/-- Valid bit of a RISC-V page-table entry (PTE_V in riscv.h). -/
def PTE_V : Nat := 1

/-- Writable bit of a RISC-V page-table entry (PTE_W = 1 << 2). -/
def PTE_W : Nat := 4

/-- COW marker bit, one of the RSW bits of the PTE (PTE_COW = 1 << 8 in
the lab's riscv.h). -/
def PTE_COW : Nat := 256

/-- Mask of a uint64; C bitwise complement ~x on uint64 is MASK64 ^^^ x. -/
def MASK64 : Nat := 2 ^ 64 - 1

/-- Physical address stored in a PTE: PTE2PA(pte) = (pte >> 10) << 12. -/
def PTE2PA (pte : Nat) : Nat := (pte >>> 10) <<< 12

/-- PTE built from a physical address: PA2PTE(pa) = (pa >> 12) << 10. -/
def PA2PTE (pa : Nat) : Nat := (pa >>> 12) <<< 10

/-- Flag bits of a PTE: PTE_FLAGS(pte) = pte & 0x3FF. -/
def PTE_FLAGS (pte : Nat) : Nat := pte &&& 0x3FF

/-- Result of cow_copy: the returned physical address (0 on failure), the
final value stored in the faulting page-table entry, the final allocator
state, and a ghost flag recording whether kalloc was invoked. -/
structure CowOut where
  ret : Nat
  pte : Nat
  st : KState
  kallocCalled : Bool

/-- Model of cow_copy (kalloc.c).  The page-table walk is external
(walk/mappages are out of scope), so the model takes the current value
pte0 of the faulting entry directly, and the success of the external
mappages call as the boolean mapok; on success mappages installs
PA2PTE(newpa) | flags | PTE_V in the entry, per its interface.  none
means a kfree call inside cow_copy panicked. -/
def cow_copy (c : KCfg) (s : KState) (pte0 : Nat) (mapok : Bool) :
    Option CowOut :=
  let pa := PTE2PA pte0
  if s.pageRef (PA2PGREF_ID pa) = 1 then
    some { ret := pa
           pte := (pte0 &&& (MASK64 ^^^ PTE_COW)) ||| PTE_W
           st := s
           kallocCalled := false }
  else
    match kalloc s with
    | (none, s1) => some { ret := 0, pte := pte0, st := s1, kallocCalled := true }
    | (some newpa, s1) =>
      let s2 : KState :=
        { s1 with mem := upd s1.mem (PA2PGREF_ID newpa) (s1.mem (PA2PGREF_ID pa)) }
      let pte1 := pte0 &&& (MASK64 ^^^ PTE_V)
      let flag := (PTE_FLAGS pte1 ||| PTE_W) &&& (MASK64 ^^^ PTE_COW)
      if mapok then
        match kfree c s2 (PGROUNDDOWN pa) with
        | none => none
        | some s3 =>
            some { ret := newpa
                   pte := PA2PTE newpa ||| flag ||| PTE_V
                   st := s3
                   kallocCalled := true }
      else
        match kfree c s2 newpa with
        | none => none
        | some s3 => some { ret := 0, pte := pte1, st := s3, kallocCalled := true }

/-- Intermediate allocator state inside cow_copy's slow path, after
kalloc succeeded by popping newpa off the free list (junk-filling the new
page and setting its count to 1) and memmove copied the old page's bytes
over it. -/
def cowMid (s : KState) (pte0 newpa : Nat) (rest : List Nat) : KState :=
  { freelist := rest
    pageRef := upd s.pageRef (PA2PGREF_ID newpa) 1
    mem := upd (upd s.mem (PA2PGREF_ID newpa) (fun _ => 5)) (PA2PGREF_ID newpa)
            ((upd s.mem (PA2PGREF_ID newpa) (fun _ => 5)) (PA2PGREF_ID (PTE2PA pte0))) }

/-- Entry value installed by mappages on cow_copy's successful slow path:
the new frame's address with the flags of the old entry, writable set and
COW cleared. -/
def cowNewPte (pte0 newpa : Nat) : Nat :=
  PA2PTE newpa
    ||| ((PTE_FLAGS (pte0 &&& (MASK64 ^^^ PTE_V)) ||| PTE_W) &&& (MASK64 ^^^ PTE_COW))
    ||| PTE_V

/-- Exposed operations on the allocator state, for reachability claims. -/
inductive Op where
  | alloc : Op
  | free : Nat → Op
  | ref : Nat → Op
  | cow : Nat → Bool → Op

/-- One step of an exposed operation; none when the operation panics. -/
def opStep (c : KCfg) (s : KState) : Op → Option KState
  | Op.alloc => some (kalloc s).2
  | Op.free pa => kfree c s pa
  | Op.ref pa => some (krefpage c s pa).2
  | Op.cow pte0 mapok => (cow_copy c s pte0 mapok).map CowOut.st

/-- Execution of a sequence of exposed operations. -/
def opRun (c : KCfg) (s : Option KState) (ops : List Op) : Option KState :=
  ops.foldl (fun os op => os.bind (fun t => opStep c t op)) s

/-- States reachable from boot when every free — direct, or the release
performed inside cow_copy on the faulting frame — hits a frame whose
reference count is still positive (no double free). -/
inductive ReachG (c : KCfg) : KState → Prop where
  | boot (s : KState) : kinit c = some s → ReachG c s
  | alloc (s : KState) : ReachG c s → ReachG c (kalloc s).2
  | free (s s' : KState) (pa : Nat) : ReachG c s →
      0 < s.pageRef (PA2PGREF_ID pa) → kfree c s pa = some s' → ReachG c s'
  | ref (s : KState) (pa : Nat) : ReachG c s → ReachG c (krefpage c s pa).2
  | cow (s : KState) (pte0 : Nat) (mapok : Bool) (o : CowOut) : ReachG c s →
      0 < s.pageRef (PA2PGREF_ID (PTE2PA pte0)) →
      cow_copy c s pte0 mapok = some o → ReachG c o.st

/-- Small concrete layout used to exercise the allocator: one reserved
kernel page, seven usable frames. -/
def wcfg : KCfg := { kernend := KERNBASE + PGSIZE, PHYSTOP := KERNBASE + 8 * PGSIZE }

/-- Concrete state: frame 2 is held twice, nothing free. -/
def w1state : KState :=
  { freelist := []
    pageRef := fun i => if i = 2 then 2 else 0
    mem := fun _ _ => 0 }

/-- Concrete state with two free frames. -/
def w2state : KState :=
  { freelist := [KERNBASE + 3 * PGSIZE, KERNBASE + 4 * PGSIZE]
    pageRef := fun _ => 0
    mem := fun _ _ => 0 }

/-- Concrete state: frame 2 allocated once, frame 5 free. -/
def w3state : KState :=
  { freelist := [KERNBASE + 5 * PGSIZE]
    pageRef := fun i => if i = 2 then 1 else 0
    mem := fun _ _ => 0 }

/-- Concrete COW page-table entry mapping frame 2 (pa 0x80002000),
valid and COW-marked. -/
def w4pte : Nat := PA2PTE (KERNBASE + 2 * PGSIZE) ||| PTE_V ||| PTE_COW

/-- Concrete state: the COW frame 2 is shared by two owners and frame 5
is free, with distinguishable page payloads. -/
def w5state : KState :=
  { freelist := [KERNBASE + 5 * PGSIZE]
    pageRef := fun i => if i = 2 then 2 else 0
    mem := fun i _ => i }

/-- Small concrete layout for the boot-reachability claims: one reserved
kernel page, three usable frames. -/
def cfg6 : KCfg := { kernend := KERNBASE + PGSIZE, PHYSTOP := KERNBASE + 4 * PGSIZE }

/-- Boot state of the small layout (kinit on cfg6 succeeds, so getD
returns the real state). -/
def boot6 : KState := (kinit cfg6).getD default

end KAlloc

namespace BCache

/-- Modulus of a C uint. -/
def U32 : Nat := 2 ^ 32

/-- Value of (uint)-1, the initial mintimestamp of the eviction scan. -/
def UINTMAX : Nat := 2 ^ 32 - 1

/-- Decrement of a C uint (wraps at zero). -/
def udec (n : Nat) : Nat := (n + (2 ^ 32 - 1)) % U32

/-- Increment of a C uint. -/
def uinc (n : Nat) : Nat := (n + 1) % U32

/-- One buffer slot (struct buf, buf.h): identity key (dev, blockno),
valid flag, reference count and last-release timestamp (both uint).  The
payload and the sleep-lock are not modelled: no claim depends on them and
the sleep-lock only serializes content access. -/
structure Buf where
  dev : Nat
  blockno : Nat
  valid : Bool
  refcnt : Nat
  timestamp : Nat
deriving DecidableEq, Repr

instance : Inhabited Buf := ⟨{ dev := 0, blockno := 0, valid := false, refcnt := 0, timestamp := 0 }⟩

/-- State of the buffer cache: the used-slot counter bcache.size, the
fixed buffer array bcache.buf, and the bucket lists (each the chain
hanging off bcache.buckets[i].next, as indices into bufs, head first). -/
structure Cache where
  size : Nat
  bufs : List Buf
  buckets : List (List Nat)
deriving DecidableEq, Repr

/-- Which path through bget produced the returned buffer: found in the
first bucket scan, claimed as a fresh slot, re-found during the eviction
scan (the race re-check), or obtained by evicting a victim. -/
inductive GPath where
  | hit : GPath
  | fresh : GPath
  | raceHit : GPath
  | evict : GPath
deriving DecidableEq, Repr

/-- Model of binit: size 0, all slots zeroed, all buckets empty. -/
def binit (NBUF NBUCKET : Nat) : Cache :=
  { size := 0
    bufs := List.replicate NBUF default
    buckets := List.replicate NBUCKET [] }

/-- First bucket scan of bget: find the index of a buffer whose key
matches (dev, blockno). -/
def findKey (bufs : List Buf) (l : List Nat) (dev blockno : Nat) : Option Nat :=
  match l with
  | [] => none
  | i :: rest =>
      if (bufs.getD i default).dev = dev ∧ (bufs.getD i default).blockno = blockno then
        some i
      else findKey bufs rest dev blockno

/-- Reference-count increment performed when a key match is found while
holding the bucket lock (b->refcnt++). -/
def bumpRef (b : Buf) : Buf := { b with refcnt := uinc b.refcnt }

/-- Re-keying of a claimed or evicted slot: the requested identity with
valid = 0 and refcnt = 1. -/
def rekey (b : Buf) (dev blockno : Nat) : Buf :=
  { b with dev := dev, blockno := blockno, valid := false, refcnt := 1 }

/-- Inner loop of the eviction scan over one bucket list.  recheck is
idx == HASH(blockno); on a key match the scan stops with Sum.inl of the
match, otherwise it tracks the refcnt == 0 buffer with the smallest
timestamp seen so far (strictly below the running minimum mints, which
starts at (uint)-1) and ends with Sum.inr of that candidate. -/
def scanBucket (bufs : List Buf) (l : List Nat) (recheck : Bool)
    (dev blockno : Nat) (minb : Option Nat) (mints : Nat) :
    Sum Nat (Option Nat) :=
  match l with
  | [] => Sum.inr minb
  | i :: rest =>
      if recheck ∧ (bufs.getD i default).dev = dev
          ∧ (bufs.getD i default).blockno = blockno then
        Sum.inl i
      else if (bufs.getD i default).refcnt = 0
          ∧ (bufs.getD i default).timestamp < mints then
        scanBucket bufs rest recheck dev blockno (some i)
          (bufs.getD i default).timestamp
      else
        scanBucket bufs rest recheck dev blockno minb mints

/-- Outer loop of the eviction scan: visit fuel buckets round-robin
starting at idx, holding bcache.hashlock.  A key match re-found during
the scan is used directly; otherwise the first bucket yielding a victim
re-keys it in place (refcnt := 1, valid := 0) and, when the victim lived
in a different bucket than the target, moves it to the head of the target
bucket.  none models the bget-no-buffers panic. -/
def evictLoop (NBUCKET : Nat) (c : Cache) (dev blockno : Nat) :
    Nat → Nat → Option (Nat × Cache × GPath)
  | 0, _ => none
  | fuel + 1, idx =>
      match scanBucket c.bufs (c.buckets.getD idx []) (idx = blockno % NBUCKET)
          dev blockno none UINTMAX with
      | Sum.inl i =>
          some (i, { c with bufs := c.bufs.set i (bumpRef (c.bufs.getD i default)) },
                GPath.raceHit)
      | Sum.inr (some v) =>
          if idx = blockno % NBUCKET then
            some (v,
                  { c with bufs := c.bufs.set v (rekey (c.bufs.getD v default) dev blockno) },
                  GPath.evict)
          else
            some (v,
                  { c with
                    bufs := c.bufs.set v (rekey (c.bufs.getD v default) dev blockno)
                    buckets :=
                      (c.buckets.set idx ((c.buckets.getD idx []).erase v)).set
                        (blockno % NBUCKET)
                        (v :: ((c.buckets.set idx ((c.buckets.getD idx []).erase v)).getD
                               (blockno % NBUCKET) [])) },
                  GPath.evict)
      | Sum.inr none =>
          evictLoop NBUCKET c dev blockno fuel ((idx + 1) % NBUCKET)

/-- Model of bget (bio.c), parameterized by the pool size NBUF (param.h)
and the bucket count NBUCKET.  Returns the index of the buffer handed
out, the new cache state and the path taken; none models the panic when
no victim exists. -/
def bget (NBUF NBUCKET : Nat) (c : Cache) (dev blockno : Nat) :
    Option (Nat × Cache × GPath) :=
  match findKey c.bufs (c.buckets.getD (blockno % NBUCKET) []) dev blockno with
  | some i =>
      some (i, { c with bufs := c.bufs.set i (bumpRef (c.bufs.getD i default)) },
            GPath.hit)
  | none =>
      if c.size < NBUF then
        some (c.size,
              { c with size := c.size + 1
                       bufs := c.bufs.set c.size
                         (rekey (c.bufs.getD c.size default) dev blockno)
                       buckets := c.buckets.set (blockno % NBUCKET)
                         (c.size :: c.buckets.getD (blockno % NBUCKET) []) },
              GPath.fresh)
      else
        evictLoop NBUCKET c dev blockno NBUCKET (blockno % NBUCKET)

/-- Model of bread: bget, then if the buffer is not valid the disk is
read (virtio_disk_rw, external; the payload is not modelled) and valid is
set. -/
def bread (NBUF NBUCKET : Nat) (c : Cache) (dev blockno : Nat) :
    Option (Nat × Cache × GPath) :=
  (bget NBUF NBUCKET c dev blockno).map (fun r =>
    let b := r.2.1.bufs.getD r.1 default
    if b.valid then r
    else (r.1, { r.2.1 with bufs := r.2.1.bufs.set r.1 { b with valid := true } }, r.2.2))

/-- Model of brelse on the buffer at index i, with the current value of
the global ticks counter: decrements refcnt (uint) and, when it reaches
zero, stamps the buffer with ticks.  The holdingsleep check and the
sleep-lock release are lock machinery, not modelled. -/
def brelse (c : Cache) (i : Nat) (ticks : Nat) : Cache :=
  let b := c.bufs.getD i default
  let r := udec b.refcnt
  let b' : Buf :=
    if r = 0 then { b with refcnt := r, timestamp := ticks }
    else { b with refcnt := r }
  { c with bufs := c.bufs.set i b' }

/-- Reference count of the buffer at index i. -/
def rcOf (bufs : List Buf) (i : Nat) : Nat := (bufs.getD i default).refcnt

/-- Timestamp of the buffer at index i. -/
def tsOf (bufs : List Buf) (i : Nat) : Nat := (bufs.getD i default).timestamp

/-- Number of buffers currently marked valid. -/
def validCount (c : Cache) : Nat := (c.bufs.filter (fun b => b.valid)).length

/-- Keys of the valid buffers, in array order. -/
def validKeys (c : Cache) : List (Nat × Nat) :=
  (c.bufs.filter (fun b => b.valid)).map (fun b => (b.dev, b.blockno))

/-- The buffer at index v has the oldest timestamp among all unreferenced
buffers of the pool. -/
def oldestFree (c : Cache) (v : Nat) : Prop :=
  ∀ b ∈ c.bufs, b.refcnt = 0 → (c.bufs.getD v default).timestamp ≤ b.timestamp

instance (c : Cache) (v : Nat) : Decidable (oldestFree c v) := by
  unfold oldestFree; infer_instance

/-- The spec scenario for the cache, with NBUF = 4 and NBUCKET = 2: read
blocks (0,1) (0,2) (0,3) (0,4) from the boot cache, release all four in
that order at ticks 1..4, then read (0,5).  The result collects the five
bget paths, the index handed out by the last read, the cache just before
the last read and the final cache. -/
def c8run : Option (List GPath × Nat × Cache × Cache) := do
  let (i1, c1, p1) ← bread 4 2 (binit 4 2) 0 1
  let (i2, c2, p2) ← bread 4 2 c1 0 2
  let (i3, c3, p3) ← bread 4 2 c2 0 3
  let (i4, c4, p4) ← bread 4 2 c3 0 4
  let c5 := brelse c4 i1 1
  let c6 := brelse c5 i2 2
  let c7 := brelse c6 i3 3
  let c8 := brelse c7 i4 4
  let (i5, c9, p5) ← bread 4 2 c8 0 5
  pure ([p1, p2, p3, p4, p5], i5, c8, c9)

/-- Fully claimed two-bucket pool in which the only unreferenced buffer
of the target bucket carries the sentinel timestamp (uint)-1, while a
strictly older unreferenced buffer lives in the other bucket. -/
def c10cex : Cache :=
  { size := 2
    bufs := [{ dev := 0, blockno := 0, valid := true, refcnt := 0, timestamp := UINTMAX },
             { dev := 0, blockno := 1, valid := true, refcnt := 0, timestamp := 5 }]
    buckets := [[0], [1]] }

/-- Fully claimed one-buffer pool whose single buffer is unreferenced. -/
def c7cache : Cache :=
  { size := 1
    bufs := [{ dev := 0, blockno := 0, valid := true, refcnt := 0, timestamp := 7 }]
    buckets := [[0]] }

/-- Fully claimed two-bucket pool with two unreferenced buffers in the
target bucket and a third, older one in the other bucket. -/
def c10wit : Cache :=
  { size := 3
    bufs := [{ dev := 0, blockno := 0, valid := true, refcnt := 0, timestamp := 9 },
             { dev := 0, blockno := 2, valid := true, refcnt := 0, timestamp := 6 },
             { dev := 0, blockno := 1, valid := true, refcnt := 0, timestamp := 3 }]
    buckets := [[0, 1], [2]] }

/-- Cache produced by the eviction on the one-buffer pool. -/
def c7after : Cache := ((bget 1 1 c7cache 0 1).map (fun r => r.2.1)).getD (binit 1 1)

/-- Cache produced by the eviction on the three-buffer pool. -/
def c10witAfter : Cache := ((bget 3 2 c10wit 0 4).map (fun r => r.2.1)).getD (binit 3 2)

end BCache

namespace KAlloc

theorem upd_same {α : Type} (f : Nat → α) (i : Nat) (v : α) : upd f i v i = v := by
  simp [upd]

theorem upd_ne {α : Type} (f : Nat → α) {i j : Nat} (v : α) (h : j ≠ i) :
    upd f i v j = f j := by
  simp [upd, h]

theorem kfree_none_iff (c : KCfg) (s : KState) (pa : Nat) :
    kfree c s pa = none ↔ kfreeInvalid c pa := by
  unfold kfree
  by_cases h : kfreeInvalid c pa
  · simp [h]
  · rw [if_neg h]
    constructor
    · intro hn
      split at hn <;> exact Option.noConfusion hn
    · intro hc
      exact absurd hc h

theorem kfree_live (c : KCfg) (s : KState) (pa : Nat) (hv : ¬ kfreeInvalid c pa)
    (hpos : 0 < s.pageRef (PA2PGREF_ID pa) - 1) :
    kfree c s pa = some { s with
      pageRef := upd s.pageRef (PA2PGREF_ID pa) (s.pageRef (PA2PGREF_ID pa) - 1) } := by
  unfold kfree
  rw [if_neg hv, if_pos hpos]

theorem kfree_last (c : KCfg) (s : KState) (pa : Nat) (hv : ¬ kfreeInvalid c pa)
    (hnpos : ¬ 0 < s.pageRef (PA2PGREF_ID pa) - 1) :
    kfree c s pa = some
      { freelist := pa :: s.freelist
        pageRef := upd s.pageRef (PA2PGREF_ID pa) (s.pageRef (PA2PGREF_ID pa) - 1)
        mem := upd s.mem (PA2PGREF_ID pa) (fun _ => 1) } := by
  unfold kfree
  rw [if_neg hv, if_neg hnpos]

/-- C1: kfree panics exactly on a misaligned, below-end, or at-or-above-
PHYSTOP address; on a valid address it decrements the frame's reference
count, and then either (count still positive) leaves the free list and
every page payload untouched, or (count now at most zero) fills the page
with the junk byte 1 and pushes the frame onto the head of the free
list. -/
theorem claim_C1 (c : KCfg) (s : KState) (pa : Nat) :
    (kfree c s pa = none ↔ (pa % PGSIZE ≠ 0 ∨ pa < c.kernend ∨ c.PHYSTOP ≤ pa))
    ∧ (pa % PGSIZE = 0 → c.kernend ≤ pa → pa < c.PHYSTOP →
        (0 < s.pageRef (PA2PGREF_ID pa) - 1 →
          ∃ s', kfree c s pa = some s'
            ∧ s'.pageRef (PA2PGREF_ID pa) = s.pageRef (PA2PGREF_ID pa) - 1
            ∧ (∀ j, j ≠ PA2PGREF_ID pa → s'.pageRef j = s.pageRef j)
            ∧ s'.freelist = s.freelist
            ∧ s'.mem = s.mem)
        ∧ (s.pageRef (PA2PGREF_ID pa) - 1 ≤ 0 →
          ∃ s', kfree c s pa = some s'
            ∧ s'.pageRef (PA2PGREF_ID pa) = s.pageRef (PA2PGREF_ID pa) - 1
            ∧ (∀ j, j ≠ PA2PGREF_ID pa → s'.pageRef j = s.pageRef j)
            ∧ s'.freelist = pa :: s.freelist
            ∧ (∀ off, s'.mem (PA2PGREF_ID pa) off = 1)
            ∧ (∀ j, j ≠ PA2PGREF_ID pa → s'.mem j = s.mem j))) := by
  refine ⟨(kfree_none_iff c s pa), ?_⟩
  intro h1 h2 h3
  have hv : ¬ kfreeInvalid c pa := by
    unfold kfreeInvalid
    push_neg
    exact ⟨h1, h2, h3⟩
  constructor
  · intro hpos
    refine ⟨_, kfree_live c s pa hv hpos, upd_same _ _ _, ?_, rfl, rfl⟩
    intro j hj
    exact upd_ne _ _ hj
  · intro hle
    have hnpos : ¬ 0 < s.pageRef (PA2PGREF_ID pa) - 1 := not_lt.mpr hle
    refine ⟨_, kfree_last c s pa hv hnpos, upd_same _ _ _, ?_, rfl, ?_, ?_⟩
    · intro j hj
      exact upd_ne _ _ hj
    · intro off
      simp [upd]
    · intro j hj
      exact upd_ne _ _ hj

/-- Witness for C1: a concrete valid address whose frame is held twice,
so the free decrements the count and leaves the free list alone. -/
theorem claim_C1_witness :
    (KERNBASE + 2 * PGSIZE) % PGSIZE = 0
    ∧ wcfg.kernend ≤ KERNBASE + 2 * PGSIZE
    ∧ KERNBASE + 2 * PGSIZE < wcfg.PHYSTOP
    ∧ 0 < w1state.pageRef (PA2PGREF_ID (KERNBASE + 2 * PGSIZE)) - 1
    ∧ (∃ s', kfree wcfg w1state (KERNBASE + 2 * PGSIZE) = some s'
        ∧ s'.pageRef (PA2PGREF_ID (KERNBASE + 2 * PGSIZE))
            = w1state.pageRef (PA2PGREF_ID (KERNBASE + 2 * PGSIZE)) - 1
        ∧ (∀ j, j ≠ PA2PGREF_ID (KERNBASE + 2 * PGSIZE) → s'.pageRef j = w1state.pageRef j)
        ∧ s'.freelist = w1state.freelist
        ∧ s'.mem = w1state.mem) :=
  ⟨by decide, by decide, by decide, by decide,
   ((claim_C1 wcfg w1state (KERNBASE + 2 * PGSIZE)).2
      (by decide) (by decide) (by decide)).1 (by decide)⟩

theorem kalloc_nil {s : KState} (h : s.freelist = []) : kalloc s = (none, s) := by
  unfold kalloc
  rw [h]

theorem kalloc_cons {s : KState} {r : Nat} {rest : List Nat} (h : s.freelist = r :: rest) :
    kalloc s = (some r,
      { freelist := rest
        pageRef := upd s.pageRef (PA2PGREF_ID r) 1
        mem := upd s.mem (PA2PGREF_ID r) (fun _ => 5) }) := by
  unfold kalloc
  rw [h]

theorem kallocDrain_freelist (n : Nat) :
    ∀ s : KState, (kallocDrain n s).freelist = s.freelist.drop n := by
  induction n with
  | zero => intro s; rfl
  | succ n ih =>
      intro s
      cases h : s.freelist with
      | nil =>
          have h1 : kallocDrain (n + 1) s = kallocDrain n s := by
            show kallocDrain n (kalloc s).2 = kallocDrain n s
            rw [kalloc_nil h]
          rw [h1, ih s, h]
          simp
      | cons r rest =>
          have h1 : kallocDrain (n + 1) s = kallocDrain n (kalloc s).2 := rfl
          rw [h1, kalloc_cons h, ih _]
          simp [h]

theorem kalloc_none_iff (s : KState) : (kalloc s).1 = none ↔ s.freelist = [] := by
  cases h : s.freelist with
  | nil => simp [kalloc_nil h, h]
  | cons r rest => simp [kalloc_cons h, h]

/-- C2: kalloc returns the null result exactly when the free list is
empty; on success it pops the head frame, fills its page with the junk
byte 5, sets the frame's reference count to 1 and changes nothing else;
and draining a free list of F - 1 frames makes the F-th call return the
null result. -/
theorem claim_C2 (s : KState) :
    ((kalloc s).1 = none ↔ s.freelist = [])
    ∧ (∀ r rest, s.freelist = r :: rest →
        (kalloc s).1 = some r
        ∧ (kalloc s).2.freelist = rest
        ∧ (kalloc s).2.pageRef (PA2PGREF_ID r) = 1
        ∧ (∀ j, j ≠ PA2PGREF_ID r → (kalloc s).2.pageRef j = s.pageRef j)
        ∧ (∀ off, (kalloc s).2.mem (PA2PGREF_ID r) off = 5)
        ∧ (∀ j, j ≠ PA2PGREF_ID r → (kalloc s).2.mem j = s.mem j))
    ∧ (kalloc (kallocDrain s.freelist.length s)).1 = none := by
  refine ⟨kalloc_none_iff s, ?_, ?_⟩
  · intro r rest h
    rw [kalloc_cons h]
    refine ⟨rfl, rfl, upd_same _ _ _, ?_, ?_, ?_⟩
    · intro j hj
      exact upd_ne _ _ hj
    · intro off
      simp [upd]
    · intro j hj
      exact upd_ne _ _ hj
  · rw [kalloc_none_iff, kallocDrain_freelist]
    exact List.drop_length _

/-- Witness for C2: a concrete two-frame free list; the successful call
pops the head, and after draining both frames the third call fails. -/
theorem claim_C2_witness :
    w2state.freelist = (KERNBASE + 3 * PGSIZE) :: [KERNBASE + 4 * PGSIZE]
    ∧ ((kalloc w2state).1 = some (KERNBASE + 3 * PGSIZE)
       ∧ (kalloc w2state).2.freelist = [KERNBASE + 4 * PGSIZE]
       ∧ (kalloc w2state).2.pageRef (PA2PGREF_ID (KERNBASE + 3 * PGSIZE)) = 1
       ∧ (∀ j, j ≠ PA2PGREF_ID (KERNBASE + 3 * PGSIZE) →
            (kalloc w2state).2.pageRef j = w2state.pageRef j)
       ∧ (∀ off, (kalloc w2state).2.mem (PA2PGREF_ID (KERNBASE + 3 * PGSIZE)) off = 5)
       ∧ (∀ j, j ≠ PA2PGREF_ID (KERNBASE + 3 * PGSIZE) →
            (kalloc w2state).2.mem j = w2state.mem j)) :=
  ⟨rfl, (claim_C2 w2state).2.1 _ _ rfl⟩

theorem krefpage_valid (c : KCfg) (s : KState) (pa : Nat) (hv : ¬ kfreeInvalid c pa) :
    krefpage c s pa = (1, { s with
      pageRef := upd s.pageRef (PA2PGREF_ID pa) (s.pageRef (PA2PGREF_ID pa) + 1) }) := by
  unfold krefpage
  rw [if_neg hv]

theorem krefN_state (c : KCfg) (pa : Nat) (hv : ¬ kfreeInvalid c pa) :
    ∀ (k : Nat) (s : KState),
      (krefN c k s pa).pageRef (PA2PGREF_ID pa) = s.pageRef (PA2PGREF_ID pa) + (k : Int)
      ∧ (∀ j, j ≠ PA2PGREF_ID pa → (krefN c k s pa).pageRef j = s.pageRef j)
      ∧ (krefN c k s pa).freelist = s.freelist
      ∧ (krefN c k s pa).mem = s.mem := by
  intro k
  induction k with
  | zero =>
      intro s
      exact ⟨by simp [krefN], fun j _ => rfl, rfl, rfl⟩
  | succ k ih =>
      intro s
      have h2 : (krefpage c s pa).2 = { s with
          pageRef := upd s.pageRef (PA2PGREF_ID pa) (s.pageRef (PA2PGREF_ID pa) + 1) } := by
        rw [krefpage_valid c s pa hv]
      have hstep : krefN c (k + 1) s pa = krefN c k (krefpage c s pa).2 pa := rfl
      obtain ⟨iA, iB, iC, iD⟩ := ih (krefpage c s pa).2
      refine ⟨?_, ?_, ?_, ?_⟩
      · rw [hstep, iA, h2]
        simp [upd]
        ring
      · intro j hj
        rw [hstep, iB j hj, h2]
        simp [upd_ne _ _ hj]
      · rw [hstep, iC, h2]
      · rw [hstep, iD, h2]

theorem kfreeN_pos (c : KCfg) (pa : Nat) (hv : ¬ kfreeInvalid c pa) :
    ∀ (j : Nat) (u : KState), (j : Int) < u.pageRef (PA2PGREF_ID pa) →
      ∃ t, kfreeN c j u pa = some t
        ∧ t.pageRef (PA2PGREF_ID pa) = u.pageRef (PA2PGREF_ID pa) - (j : Int)
        ∧ (∀ i, i ≠ PA2PGREF_ID pa → t.pageRef i = u.pageRef i)
        ∧ t.freelist = u.freelist
        ∧ t.mem = u.mem := by
  intro j
  induction j with
  | zero =>
      intro u h
      exact ⟨u, rfl, by simp, fun i _ => rfl, rfl, rfl⟩
  | succ j ih =>
      intro u h
      have hpos : 0 < u.pageRef (PA2PGREF_ID pa) - 1 := by
        push_cast at h
        omega
      have hk := kfree_live c u pa hv hpos
      have hrec : (j : Int) <
          (KState.mk u.freelist
            (upd u.pageRef (PA2PGREF_ID pa) (u.pageRef (PA2PGREF_ID pa) - 1))
            u.mem).pageRef (PA2PGREF_ID pa) := by
        simp [upd]
        push_cast at h
        omega
      obtain ⟨t, e1, e2, e3, e4, e5⟩ := ih _ hrec
      refine ⟨t, ?_, ?_, ?_, ?_, ?_⟩
      · show (kfree c u pa).bind (fun t => kfreeN c j t pa) = some t
        rw [hk]
        exact e1
      · rw [e2]
        simp [upd]
        ring
      · intro i hi
        rw [e3 i hi]
        simp [upd_ne _ _ hi]
      · exact e4
      · exact e5

theorem kfreeN_snoc (c : KCfg) (pa : Nat) :
    ∀ (j : Nat) (u : KState),
      kfreeN c (j + 1) u pa = (kfreeN c j u pa).bind (fun t => kfree c t pa) := by
  intro j
  induction j with
  | zero =>
      intro u
      show (kfree c u pa).bind (fun t => kfreeN c 0 t pa) = (some u).bind (fun t => kfree c t pa)
      cases hk : kfree c u pa <;> simp [kfreeN, hk]
  | succ j ih =>
      intro u
      show (kfree c u pa).bind (fun t => kfreeN c (j + 1) t pa)
          = ((kfree c u pa).bind (fun t => kfreeN c j t pa)).bind (fun t => kfree c t pa)
      cases hk : kfree c u pa with
      | none => simp
      | some u' => simp [ih u']

/-- C3: for a valid frame with reference count 1, k krefpage calls all
succeed and raise the count to 1 + k; the first k kfree calls then only
decrement the count and leave the free list unchanged, and the (k+1)-th
call pushes the frame onto the free list. -/
theorem claim_C3 (c : KCfg) (s : KState) (pa : Nat) (k : Nat)
    (h1 : pa % PGSIZE = 0) (h2 : c.kernend ≤ pa) (h3 : pa < c.PHYSTOP)
    (hcnt : s.pageRef (PA2PGREF_ID pa) = 1) :
    (∀ t : KState, (krefpage c t pa).1 = 1)
    ∧ (krefN c k s pa).pageRef (PA2PGREF_ID pa) = 1 + (k : Int)
    ∧ (∀ j, j ≤ k →
        ∃ t, kfreeN c j (krefN c k s pa) pa = some t
          ∧ t.freelist = s.freelist
          ∧ t.pageRef (PA2PGREF_ID pa) = 1 + (k : Int) - (j : Int))
    ∧ (∃ t, kfreeN c (k + 1) (krefN c k s pa) pa = some t
        ∧ t.freelist = pa :: s.freelist) := by
  have hv : ¬ kfreeInvalid c pa := by
    unfold kfreeInvalid
    push_neg
    exact ⟨h1, h2, h3⟩
  obtain ⟨hA, hB, hC, hD⟩ := krefN_state c pa hv k s
  have hAc : (krefN c k s pa).pageRef (PA2PGREF_ID pa) = 1 + (k : Int) := by
    rw [hA, hcnt]
  refine ⟨?_, hAc, ?_, ?_⟩
  · intro t
    rw [krefpage_valid c t pa hv]
  · intro j hj
    have hlt : (j : Int) < (krefN c k s pa).pageRef (PA2PGREF_ID pa) := by
      rw [hAc]
      omega
    obtain ⟨t, e1, e2, e3, e4, e5⟩ := kfreeN_pos c pa hv j _ hlt
    refine ⟨t, e1, e4.trans hC, ?_⟩
    rw [e2, hAc]
  · rw [kfreeN_snoc]
    have hlt : (k : Int) < (krefN c k s pa).pageRef (PA2PGREF_ID pa) := by
      rw [hAc]
      omega
    obtain ⟨t, e1, e2, e3, e4, e5⟩ := kfreeN_pos c pa hv k _ hlt
    rw [e1]
    have hct : t.pageRef (PA2PGREF_ID pa) = 1 := by
      rw [e2, hAc]
      ring
    have hnpos : ¬ 0 < t.pageRef (PA2PGREF_ID pa) - 1 := by
      rw [hct]
      simp
    refine ⟨_, kfree_last c t pa hv hnpos, ?_⟩
    show pa :: t.freelist = pa :: s.freelist
    rw [e4, hC]

/-- Witness for C3: the valid frame 2 of the small layout, shared twice
beyond its initial owner. -/
theorem claim_C3_witness :
    (KERNBASE + 2 * PGSIZE) % PGSIZE = 0
    ∧ wcfg.kernend ≤ KERNBASE + 2 * PGSIZE
    ∧ KERNBASE + 2 * PGSIZE < wcfg.PHYSTOP
    ∧ w3state.pageRef (PA2PGREF_ID (KERNBASE + 2 * PGSIZE)) = 1
    ∧ ((∀ t : KState, (krefpage wcfg t (KERNBASE + 2 * PGSIZE)).1 = 1)
       ∧ (krefN wcfg 2 w3state (KERNBASE + 2 * PGSIZE)).pageRef
            (PA2PGREF_ID (KERNBASE + 2 * PGSIZE)) = 1 + (2 : Int)
       ∧ (∀ j, j ≤ 2 →
           ∃ t, kfreeN wcfg j (krefN wcfg 2 w3state (KERNBASE + 2 * PGSIZE))
                  (KERNBASE + 2 * PGSIZE) = some t
             ∧ t.freelist = w3state.freelist
             ∧ t.pageRef (PA2PGREF_ID (KERNBASE + 2 * PGSIZE)) = 1 + (2 : Int) - (j : Int))
       ∧ (∃ t, kfreeN wcfg (2 + 1) (krefN wcfg 2 w3state (KERNBASE + 2 * PGSIZE))
                 (KERNBASE + 2 * PGSIZE) = some t
           ∧ t.freelist = (KERNBASE + 2 * PGSIZE) :: w3state.freelist)) :=
  ⟨by decide, by decide, by decide, by decide,
   claim_C3 wcfg w3state (KERNBASE + 2 * PGSIZE) 2
     (by decide) (by decide) (by decide) (by decide)⟩

theorem PTE2PA_mod (pte : Nat) : PTE2PA pte % PGSIZE = 0 := by
  show (pte >>> 10) <<< 12 % PGSIZE = 0
  rw [Nat.shiftLeft_eq]
  show (pte >>> 10) * 4096 % 4096 = 0
  exact Nat.mul_mod_left _ _

theorem PGROUNDDOWN_eq_self {a : Nat} (h : a % PGSIZE = 0) : PGROUNDDOWN a = a := by
  show a / PGSIZE * PGSIZE = a
  exact Nat.div_mul_cancel (Nat.dvd_of_mod_eq_zero h)

theorem PA2PGREF_ID_inj {a b : Nat} (ha : a % PGSIZE = 0) (hb : b % PGSIZE = 0)
    (ha2 : KERNBASE ≤ a) (hb2 : KERNBASE ≤ b)
    (h : PA2PGREF_ID a = PA2PGREF_ID b) : a = b := by
  have hk : PGSIZE ∣ KERNBASE := Nat.dvd_of_mod_eq_zero (by decide)
  have hd1 : PGSIZE ∣ a - KERNBASE :=
    Nat.dvd_sub' (Nat.dvd_of_mod_eq_zero ha) hk
  have hd2 : PGSIZE ∣ b - KERNBASE :=
    Nat.dvd_sub' (Nat.dvd_of_mod_eq_zero hb) hk
  have e1 : (a - KERNBASE) / PGSIZE * PGSIZE = a - KERNBASE := Nat.div_mul_cancel hd1
  have e2 : (b - KERNBASE) / PGSIZE * PGSIZE = b - KERNBASE := Nat.div_mul_cancel hd2
  unfold PA2PGREF_ID at h
  have : a - KERNBASE = b - KERNBASE := by
    rw [← e1, ← e2, h]
  omega

theorem cow_copy_fast (c : KCfg) (s : KState) (pte0 : Nat) (mapok : Bool)
    (h : s.pageRef (PA2PGREF_ID (PTE2PA pte0)) = 1) :
    cow_copy c s pte0 mapok = some
      { ret := PTE2PA pte0
        pte := (pte0 &&& (MASK64 ^^^ PTE_COW)) ||| PTE_W
        st := s
        kallocCalled := false } := by
  unfold cow_copy
  rw [if_pos h]

/-- C4: on a COW fault for a frame with reference count exactly 1,
cow_copy returns the physical address the entry already maps, clears the
COW bit and sets the writable bit of the entry while leaving every other
bit of the 64-bit entry unchanged, never calls kalloc, and leaves the
whole allocator state — free list included — untouched. -/
theorem claim_C4 (c : KCfg) (s : KState) (pte0 : Nat) (mapok : Bool)
    (h : s.pageRef (PA2PGREF_ID (PTE2PA pte0)) = 1) :
    ∃ o, cow_copy c s pte0 mapok = some o
      ∧ o.ret = PTE2PA pte0
      ∧ o.st = s
      ∧ o.kallocCalled = false
      ∧ o.pte.testBit 8 = false
      ∧ o.pte.testBit 2 = true
      ∧ (∀ b, b < 64 → b ≠ 8 → b ≠ 2 → o.pte.testBit b = pte0.testBit b) := by
  refine ⟨_, cow_copy_fast c s pte0 mapok h, rfl, rfl, rfl, ?_, ?_, ?_⟩
  · have h8 : (MASK64 ^^^ PTE_COW).testBit 8 = false := by decide
    have hw8 : Nat.testBit PTE_W 8 = false := by decide
    simp [Nat.testBit_or, Nat.testBit_and, h8, hw8]
  · have hw2 : Nat.testBit PTE_W 2 = true := by decide
    simp [Nat.testBit_or, hw2]
  · intro b hb h8b h2b
    have hm : (MASK64 ^^^ PTE_COW).testBit b = true := by
      rw [show MASK64 = 2 ^ 64 - 1 from rfl, show PTE_COW = 2 ^ 8 from rfl,
          Nat.testBit_xor, Nat.testBit_two_pow_sub_one, Nat.testBit_two_pow]
      simp [hb, Ne.symm h8b]
    have hw : Nat.testBit PTE_W b = false := by
      rw [show PTE_W = 2 ^ 2 from rfl, Nat.testBit_two_pow]
      simp [Ne.symm h2b]
    rw [Nat.testBit_or, Nat.testBit_and, hm, hw]
    simp

/-- Witness for C4: a concrete valid COW entry mapping frame 2 of the
small layout, with the frame held by a single owner. -/
theorem claim_C4_witness :
    w3state.pageRef (PA2PGREF_ID (PTE2PA w4pte)) = 1
    ∧ (∃ o, cow_copy wcfg w3state w4pte true = some o
        ∧ o.ret = PTE2PA w4pte
        ∧ o.st = w3state
        ∧ o.kallocCalled = false
        ∧ o.pte.testBit 8 = false
        ∧ o.pte.testBit 2 = true
        ∧ (∀ b, b < 64 → b ≠ 8 → b ≠ 2 → o.pte.testBit b = Nat.testBit w4pte b)) :=
  ⟨by decide, claim_C4 wcfg w3state w4pte true (by decide)⟩

theorem cow_copy_oom (c : KCfg) (s : KState) (pte0 : Nat) (mapok : Bool)
    (hne1 : s.pageRef (PA2PGREF_ID (PTE2PA pte0)) ≠ 1)
    (hfl : s.freelist = []) :
    cow_copy c s pte0 mapok
      = some { ret := 0, pte := pte0, st := s, kallocCalled := true } := by
  unfold cow_copy
  rw [if_neg hne1, kalloc_nil hfl]

theorem cow_copy_slow_ok (c : KCfg) (s : KState) (pte0 : Nat)
    (hne1 : s.pageRef (PA2PGREF_ID (PTE2PA pte0)) ≠ 1)
    {newpa : Nat} {rest : List Nat} (hfl : s.freelist = newpa :: rest)
    {s3 : KState}
    (hkf : kfree c (cowMid s pte0 newpa rest) (PGROUNDDOWN (PTE2PA pte0)) = some s3) :
    cow_copy c s pte0 true = some
      { ret := newpa, pte := cowNewPte pte0 newpa, st := s3, kallocCalled := true } := by
  unfold cow_copy
  rw [if_neg hne1, kalloc_cons hfl]
  show (match kfree c (cowMid s pte0 newpa rest) (PGROUNDDOWN (PTE2PA pte0)) with
        | none => none
        | some s3 => some ({ ret := newpa, pte := cowNewPte pte0 newpa, st := s3,
                             kallocCalled := true } : CowOut)) = _
  rw [hkf]

theorem cow_copy_slow_mapfail (c : KCfg) (s : KState) (pte0 : Nat)
    (hne1 : s.pageRef (PA2PGREF_ID (PTE2PA pte0)) ≠ 1)
    {newpa : Nat} {rest : List Nat} (hfl : s.freelist = newpa :: rest)
    {s3 : KState}
    (hkf : kfree c (cowMid s pte0 newpa rest) newpa = some s3) :
    cow_copy c s pte0 false = some
      { ret := 0, pte := pte0 &&& (MASK64 ^^^ PTE_V), st := s3, kallocCalled := true } := by
  unfold cow_copy
  rw [if_neg hne1, kalloc_cons hfl]
  show (match kfree c (cowMid s pte0 newpa rest) newpa with
        | none => none
        | some s3 => some ({ ret := 0, pte := pte0 &&& (MASK64 ^^^ PTE_V), st := s3,
                             kallocCalled := true } : CowOut)) = _
  rw [hkf]

/-- C5: on a COW fault for a mapped frame with reference count 2, a
successful cow_copy hands back a different physical address whose page
bytes are a copy of the old frame's, and decrements the old frame's count
by exactly one without putting the old frame on the free list; when the
free list is empty, kalloc fails and cow_copy returns the 0 sentinel with
no copy performed. -/
theorem claim_C5 (c : KCfg) (s : KState) (pte0 : Nat)
    (hcnt : s.pageRef (PA2PGREF_ID (PTE2PA pte0)) = 2)
    (hkl : c.kernend ≤ PTE2PA pte0) (hph : PTE2PA pte0 < c.PHYSTOP)
    (hkb : KERNBASE ≤ PTE2PA pte0)
    (hnotfree : PTE2PA pte0 ∉ s.freelist) :
    (s.freelist = [] →
      cow_copy c s pte0 true
        = some { ret := 0, pte := pte0, st := s, kallocCalled := true })
    ∧ (∀ newpa rest, s.freelist = newpa :: rest →
        newpa % PGSIZE = 0 → KERNBASE ≤ newpa →
        ∃ o, cow_copy c s pte0 true = some o
          ∧ o.ret = newpa
          ∧ o.ret ≠ PTE2PA pte0
          ∧ o.st.mem (PA2PGREF_ID newpa) = s.mem (PA2PGREF_ID (PTE2PA pte0))
          ∧ o.st.pageRef (PA2PGREF_ID (PTE2PA pte0))
              = s.pageRef (PA2PGREF_ID (PTE2PA pte0)) - 1
          ∧ PTE2PA pte0 ∉ o.st.freelist) := by
  have hne1 : s.pageRef (PA2PGREF_ID (PTE2PA pte0)) ≠ 1 := by
    rw [hcnt]
    decide
  constructor
  · intro hfl
    exact cow_copy_oom c s pte0 true hne1 hfl
  · intro newpa rest hfl hna hnkb
    have hpa_mod := PTE2PA_mod pte0
    have hv : ¬ kfreeInvalid c (PTE2PA pte0) := by
      unfold kfreeInvalid
      push_neg
      exact ⟨hpa_mod, hkl, hph⟩
    have hnew_ne : newpa ≠ PTE2PA pte0 := by
      intro he
      apply hnotfree
      rw [← he, hfl]
      exact List.mem_cons_self _ _
    have hid_ne : PA2PGREF_ID (PTE2PA pte0) ≠ PA2PGREF_ID newpa := by
      intro he
      exact hnew_ne (PA2PGREF_ID_inj hpa_mod hna hkb hnkb he).symm
    have hmid : (cowMid s pte0 newpa rest).pageRef (PA2PGREF_ID (PTE2PA pte0)) = 2 := by
      show upd s.pageRef (PA2PGREF_ID newpa) 1 (PA2PGREF_ID (PTE2PA pte0)) = 2
      rw [upd_ne _ _ hid_ne, hcnt]
    have hpos : 0 < (cowMid s pte0 newpa rest).pageRef (PA2PGREF_ID (PTE2PA pte0)) - 1 := by
      rw [hmid]
      decide
    have hkf := kfree_live c (cowMid s pte0 newpa rest) (PTE2PA pte0) hv hpos
    have hkf2 : kfree c (cowMid s pte0 newpa rest) (PGROUNDDOWN (PTE2PA pte0))
        = some { cowMid s pte0 newpa rest with
                 pageRef := upd (cowMid s pte0 newpa rest).pageRef
                   (PA2PGREF_ID (PTE2PA pte0))
                   ((cowMid s pte0 newpa rest).pageRef (PA2PGREF_ID (PTE2PA pte0)) - 1) } := by
      rw [PGROUNDDOWN_eq_self hpa_mod]
      exact hkf
    refine ⟨_, cow_copy_slow_ok c s pte0 hne1 hfl hkf2, rfl, hnew_ne, ?_, ?_, ?_⟩
    · show (cowMid s pte0 newpa rest).mem (PA2PGREF_ID newpa)
          = s.mem (PA2PGREF_ID (PTE2PA pte0))
      show upd (upd s.mem (PA2PGREF_ID newpa) (fun _ => 5)) (PA2PGREF_ID newpa)
            ((upd s.mem (PA2PGREF_ID newpa) (fun _ => 5)) (PA2PGREF_ID (PTE2PA pte0)))
            (PA2PGREF_ID newpa)
          = s.mem (PA2PGREF_ID (PTE2PA pte0))
      rw [upd_same]
      exact upd_ne _ _ hid_ne
    · show upd (cowMid s pte0 newpa rest).pageRef (PA2PGREF_ID (PTE2PA pte0))
            ((cowMid s pte0 newpa rest).pageRef (PA2PGREF_ID (PTE2PA pte0)) - 1)
            (PA2PGREF_ID (PTE2PA pte0))
          = s.pageRef (PA2PGREF_ID (PTE2PA pte0)) - 1
      rw [upd_same, hmid, hcnt]
    · show PTE2PA pte0 ∉ rest
      intro hmem
      apply hnotfree
      rw [hfl]
      exact List.mem_cons_of_mem _ hmem

/-- Witness for C5: the COW entry for frame 2 of the small layout, shared
by two owners, with frame 5 free. -/
theorem claim_C5_witness :
    (w5state.pageRef (PA2PGREF_ID (PTE2PA w4pte)) = 2
     ∧ wcfg.kernend ≤ PTE2PA w4pte
     ∧ PTE2PA w4pte < wcfg.PHYSTOP
     ∧ KERNBASE ≤ PTE2PA w4pte
     ∧ PTE2PA w4pte ∉ w5state.freelist)
    ∧ (∃ o, cow_copy wcfg w5state w4pte true = some o
        ∧ o.ret = KERNBASE + 5 * PGSIZE
        ∧ o.ret ≠ PTE2PA w4pte
        ∧ o.st.mem (PA2PGREF_ID (KERNBASE + 5 * PGSIZE))
            = w5state.mem (PA2PGREF_ID (PTE2PA w4pte))
        ∧ o.st.pageRef (PA2PGREF_ID (PTE2PA w4pte))
            = w5state.pageRef (PA2PGREF_ID (PTE2PA w4pte)) - 1
        ∧ PTE2PA w4pte ∉ o.st.freelist) :=
  ⟨⟨by decide, by decide, by decide, by decide, by decide⟩,
   (claim_C5 wcfg w5state w4pte (by decide) (by decide) (by decide) (by decide)
      (by decide)).2 (KERNBASE + 5 * PGSIZE) [] rfl (by decide) (by decide)⟩

/-- C9: on the slow path, if the external mappages call fails, cow_copy
returns the 0 sentinel, the freshly allocated frame is released via kfree
and lands back on the free list with count 0, while the faulting entry is
left with its valid bit cleared, so the pre-fault entry value is not
restored. -/
theorem claim_C9 (c : KCfg) (s : KState) (pte0 : Nat)
    (hne1 : s.pageRef (PA2PGREF_ID (PTE2PA pte0)) ≠ 1)
    (hval : pte0.testBit 0 = true) :
    (s.freelist = [] →
      cow_copy c s pte0 false
        = some { ret := 0, pte := pte0, st := s, kallocCalled := true })
    ∧ (∀ newpa rest, s.freelist = newpa :: rest →
        newpa % PGSIZE = 0 → c.kernend ≤ newpa → newpa < c.PHYSTOP →
        ∃ o, cow_copy c s pte0 false = some o
          ∧ o.ret = 0
          ∧ o.kallocCalled = true
          ∧ o.st.freelist = newpa :: rest
          ∧ o.st.pageRef (PA2PGREF_ID newpa) = 0
          ∧ o.pte.testBit 0 = false
          ∧ o.pte ≠ pte0) := by
  constructor
  · intro hfl
    exact cow_copy_oom c s pte0 false hne1 hfl
  · intro newpa rest hfl hna hnk hnp
    have hvn : ¬ kfreeInvalid c newpa := by
      unfold kfreeInvalid
      push_neg
      exact ⟨hna, hnk, hnp⟩
    have hmidn : (cowMid s pte0 newpa rest).pageRef (PA2PGREF_ID newpa) = 1 := by
      show upd s.pageRef (PA2PGREF_ID newpa) 1 (PA2PGREF_ID newpa) = 1
      exact upd_same _ _ _
    have hnpos : ¬ 0 < (cowMid s pte0 newpa rest).pageRef (PA2PGREF_ID newpa) - 1 := by
      rw [hmidn]
      decide
    have hkf := kfree_last c (cowMid s pte0 newpa rest) newpa hvn hnpos
    have h0 : (pte0 &&& (MASK64 ^^^ PTE_V)).testBit 0 = false := by
      rw [Nat.testBit_and]
      have hm : (MASK64 ^^^ PTE_V).testBit 0 = false := by decide
      simp [hm]
    refine ⟨_, cow_copy_slow_mapfail c s pte0 hne1 hfl hkf, rfl, rfl, rfl, ?_, h0, ?_⟩
    · show upd (cowMid s pte0 newpa rest).pageRef (PA2PGREF_ID newpa)
            ((cowMid s pte0 newpa rest).pageRef (PA2PGREF_ID newpa) - 1)
            (PA2PGREF_ID newpa)
          = 0
      rw [upd_same, hmidn]
      decide
    · intro he
      have he2 : pte0 &&& (MASK64 ^^^ PTE_V) = pte0 := he
      rw [he2, hval] at h0
      exact Bool.noConfusion h0

/-- Witness for C9: the same shared COW frame with frame 5 free, but the
mappages call fails. -/
theorem claim_C9_witness :
    (w5state.pageRef (PA2PGREF_ID (PTE2PA w4pte)) ≠ 1
     ∧ Nat.testBit w4pte 0 = true)
    ∧ (∃ o, cow_copy wcfg w5state w4pte false = some o
        ∧ o.ret = 0
        ∧ o.kallocCalled = true
        ∧ o.st.freelist = (KERNBASE + 5 * PGSIZE) :: []
        ∧ o.st.pageRef (PA2PGREF_ID (KERNBASE + 5 * PGSIZE)) = 0
        ∧ o.pte.testBit 0 = false
        ∧ o.pte ≠ w4pte) :=
  ⟨⟨by decide, by decide⟩,
   (claim_C9 wcfg w5state w4pte (by decide) (by decide)).2 (KERNBASE + 5 * PGSIZE) []
     rfl (by decide) (by decide) (by decide)⟩

theorem cow_copy_slow_map_true (c : KCfg) (s : KState) (pte0 : Nat)
    (hne1 : s.pageRef (PA2PGREF_ID (PTE2PA pte0)) ≠ 1)
    {newpa : Nat} {rest : List Nat} (hfl : s.freelist = newpa :: rest) :
    cow_copy c s pte0 true
      = (kfree c (cowMid s pte0 newpa rest) (PGROUNDDOWN (PTE2PA pte0))).map
          (fun s3 => { ret := newpa, pte := cowNewPte pte0 newpa, st := s3,
                       kallocCalled := true }) := by
  unfold cow_copy
  rw [if_neg hne1, kalloc_cons hfl]
  show (match kfree c (cowMid s pte0 newpa rest) (PGROUNDDOWN (PTE2PA pte0)) with
        | none => none
        | some s3 => some ({ ret := newpa, pte := cowNewPte pte0 newpa, st := s3,
                             kallocCalled := true } : CowOut)) = _
  cases kfree c (cowMid s pte0 newpa rest) (PGROUNDDOWN (PTE2PA pte0)) <;> rfl

theorem cow_copy_slow_map_false (c : KCfg) (s : KState) (pte0 : Nat)
    (hne1 : s.pageRef (PA2PGREF_ID (PTE2PA pte0)) ≠ 1)
    {newpa : Nat} {rest : List Nat} (hfl : s.freelist = newpa :: rest) :
    cow_copy c s pte0 false
      = (kfree c (cowMid s pte0 newpa rest) newpa).map
          (fun s3 => { ret := 0, pte := pte0 &&& (MASK64 ^^^ PTE_V), st := s3,
                       kallocCalled := true }) := by
  unfold cow_copy
  rw [if_neg hne1, kalloc_cons hfl]
  show (match kfree c (cowMid s pte0 newpa rest) newpa with
        | none => none
        | some s3 => some ({ ret := 0, pte := pte0 &&& (MASK64 ^^^ PTE_V), st := s3,
                             kallocCalled := true } : CowOut)) = _
  cases kfree c (cowMid s pte0 newpa rest) newpa <;> rfl

theorem kfree_pageRef (c : KCfg) (s s' : KState) (pa : Nat)
    (h : kfree c s pa = some s') :
    s'.pageRef = upd s.pageRef (PA2PGREF_ID pa) (s.pageRef (PA2PGREF_ID pa) - 1) := by
  unfold kfree at h
  by_cases hv : kfreeInvalid c pa
  · rw [if_pos hv] at h
    exact Option.noConfusion h
  · rw [if_neg hv] at h
    by_cases hp : 0 < s.pageRef (PA2PGREF_ID pa) - 1
    · rw [if_pos hp] at h
      cases h
      rfl
    · rw [if_neg hp] at h
      cases h
      rfl

theorem le_PGROUNDUP (a : Nat) : a ≤ PGROUNDUP a := by
  show a ≤ (a + PGSIZE - 1) / PGSIZE * PGSIZE
  have hm := Nat.div_add_mod (a + PGSIZE - 1) PGSIZE
  have hlt : (a + PGSIZE - 1) % PGSIZE < PGSIZE := Nat.mod_lt _ (by decide)
  show a ≤ (a + 4096 - 1) / 4096 * 4096
  omega

theorem PGROUNDUP_mod (a : Nat) : PGROUNDUP a % PGSIZE = 0 := by
  show (a + PGSIZE - 1) / PGSIZE * PGSIZE % PGSIZE = 0
  exact Nat.mul_mod_left _ _

theorem freerange_mem {c : KCfg} {pa : Nat} (h : pa ∈ freerangeList c) :
    ∃ i, i < (c.PHYSTOP - PGROUNDUP c.kernend) / PGSIZE
      ∧ pa = PGROUNDUP c.kernend + i * PGSIZE := by
  unfold freerangeList at h
  simp only [List.mem_map, List.mem_range] at h
  obtain ⟨i, hi, he⟩ := h
  exact ⟨i, hi, he.symm⟩

theorem freerange_id (c : KCfg) (hc : KERNBASE ≤ c.kernend) (i : Nat) :
    PA2PGREF_ID (PGROUNDUP c.kernend + i * PGSIZE)
      = (PGROUNDUP c.kernend - KERNBASE) / PGSIZE + i := by
  unfold PA2PGREF_ID
  have hb : KERNBASE ≤ PGROUNDUP c.kernend := le_trans hc (le_PGROUNDUP _)
  have h1 : PGROUNDUP c.kernend + i * PGSIZE - KERNBASE
      = (PGROUNDUP c.kernend - KERNBASE) + i * PGSIZE := by omega
  rw [h1, Nat.add_mul_div_right _ _ (by decide : 0 < PGSIZE)]

theorem freerange_id_lt {c : KCfg} (hc : KERNBASE ≤ c.kernend) {pa : Nat}
    (h : pa ∈ freerangeList c) : PA2PGREF_ID pa < PGREF_MAX_ENTRIES c := by
  obtain ⟨i, hi, rfl⟩ := freerange_mem h
  rw [freerange_id c hc]
  show (PGROUNDUP c.kernend - KERNBASE) / PGSIZE + i < PA2PGREF_ID c.PHYSTOP
  unfold PA2PGREF_ID
  have hb : KERNBASE ≤ PGROUNDUP c.kernend := le_trans hc (le_PGROUNDUP _)
  have hd : PGSIZE ∣ PGROUNDUP c.kernend - KERNBASE :=
    Nat.dvd_sub' (Nat.dvd_of_mod_eq_zero (PGROUNDUP_mod _))
      (Nat.dvd_of_mod_eq_zero (by decide))
  have he : (PGROUNDUP c.kernend - KERNBASE) / PGSIZE * PGSIZE
      = PGROUNDUP c.kernend - KERNBASE := Nat.div_mul_cancel hd
  have h2 : (i + 1) * PGSIZE ≤ c.PHYSTOP - PGROUNDUP c.kernend :=
    le_trans (Nat.mul_le_mul_right _ (Nat.succ_le_of_lt hi)) (Nat.div_mul_le_self _ _)
  have h3 : ((PGROUNDUP c.kernend - KERNBASE) / PGSIZE + i + 1) * PGSIZE
      ≤ c.PHYSTOP - KERNBASE := by
    simp only [PGSIZE] at he h2 ⊢
    omega
  have h4 := (Nat.le_div_iff_mul_le (by decide : 0 < PGSIZE)).mpr h3
  omega

theorem freerange_aligned {c : KCfg} {pa : Nat} (h : pa ∈ freerangeList c) :
    pa % PGSIZE = 0 := by
  obtain ⟨i, _, rfl⟩ := freerange_mem h
  have h1 : PGROUNDUP c.kernend % PGSIZE = 0 := PGROUNDUP_mod _
  simp only [PGSIZE] at h1 ⊢
  omega

theorem freerange_ge {c : KCfg} (hc : KERNBASE ≤ c.kernend) {pa : Nat}
    (h : pa ∈ freerangeList c) : KERNBASE ≤ pa := by
  obtain ⟨i, _, rfl⟩ := freerange_mem h
  have h1 := le_PGROUNDUP c.kernend
  omega

theorem freerange_ids_nodup (c : KCfg) (hc : KERNBASE ≤ c.kernend) :
    ((freerangeList c).map PA2PGREF_ID).Nodup := by
  have hnd : (freerangeList c).Nodup := by
    unfold freerangeList
    refine List.Nodup.map ?_ (List.nodup_range _)
    intro i j hij
    simp only [PGSIZE] at hij
    omega
  refine List.Nodup.map_on ?_ hnd
  intro x hx y hy hxy
  exact PA2PGREF_ID_inj (freerange_aligned hx) (freerange_aligned hy)
    (freerange_ge hc hx) (freerange_ge hc hy) hxy

theorem foldl_bind_none (c : KCfg) (l : List Nat) :
    l.foldl (fun os pa => os.bind (fun u => kfree c u pa)) none = none := by
  induction l with
  | nil => rfl
  | cons pa l ih =>
      show l.foldl (fun os pa => os.bind (fun u => kfree c u pa)) (Option.bind none _) = none
      exact ih

theorem kfree_fold_nonneg (c : KCfg) :
    ∀ (l : List Nat) (s : KState),
      (∀ i, 0 ≤ s.pageRef i) →
      (∀ pa ∈ l, 1 ≤ s.pageRef (PA2PGREF_ID pa)) →
      ((l.map PA2PGREF_ID).Nodup) →
      ∀ t, l.foldl (fun os pa => os.bind (fun u => kfree c u pa)) (some s) = some t →
        ∀ i, 0 ≤ t.pageRef i := by
  intro l
  induction l with
  | nil =>
      intro s h0 _ _ t ht i
      cases ht
      exact h0 i
  | cons pa l ih =>
      intro s h0 h1 hnd t ht i
      have hstep : (pa :: l).foldl (fun os pa => os.bind (fun u => kfree c u pa)) (some s)
          = l.foldl (fun os pa => os.bind (fun u => kfree c u pa)) (kfree c s pa) := rfl
      rw [hstep] at ht
      cases hkf : kfree c s pa with
      | none =>
          rw [hkf, foldl_bind_none] at ht
          exact Option.noConfusion ht
      | some s' =>
          rw [hkf] at ht
          have hpr := kfree_pageRef c s s' pa hkf
          rw [List.map_cons, List.nodup_cons] at hnd
          refine ih s' ?_ ?_ hnd.2 t ht i
          · intro j
            rw [hpr]
            unfold upd
            split
            · have := h1 pa (List.mem_cons_self _ _)
              omega
            · exact h0 j
          · intro q hq
            rw [hpr]
            unfold upd
            split
            · rename_i heq
              exfalso
              apply hnd.1
              rw [← heq]
              exact List.mem_map_of_mem _ hq
            · exact h1 q (List.mem_cons_of_mem _ hq)

theorem kinit_nonneg (c : KCfg) (hc : KERNBASE ≤ c.kernend) {s : KState}
    (h : kinit c = some s) : ∀ i, 0 ≤ s.pageRef i := by
  refine kfree_fold_nonneg c (freerangeList c) (initState c) ?_ ?_
    (freerange_ids_nodup c hc) s h
  · intro i
    show (0 : Int) ≤ if i < PGREF_MAX_ENTRIES c then 1 else 0
    split <;> decide
  · intro pa hpa
    show (1 : Int) ≤ if PA2PGREF_ID pa < PGREF_MAX_ENTRIES c then 1 else 0
    rw [if_pos (freerange_id_lt hc hpa)]

/-- C6 counterexample: from the boot state of the small layout, the
single exposed operation kfree(KERNBASE + PGSIZE) passes kfree's
alignment and range check (the address is page-aligned, at end, below
PHYSTOP) even though that frame is already on the free list, and drives
the frame's reference count to -1, violating cnt >= 0. -/
theorem claim_C6_counterexample :
    (opRun cfg6 (kinit cfg6) [Op.free (KERNBASE + PGSIZE)]).map
        (fun s => s.pageRef (PA2PGREF_ID (KERNBASE + PGSIZE))) = some (-1)
    ∧ ¬ kfreeInvalid cfg6 (KERNBASE + PGSIZE) := by
  constructor
  · decide
  · decide

/-- C6 (amended): in every state reachable from boot through kalloc,
krefpage, cow_copy and kfree, provided every release — a direct kfree, or
the release cow_copy performs on the faulting frame — hits a frame whose
reference count is still positive (i.e. no freeing of an already-free
frame), every entry of the page reference table stays nonnegative. -/
theorem claim_C6_amended (c : KCfg) (hc : KERNBASE ≤ c.kernend) (s : KState)
    (h : ReachG c s) : ∀ i, 0 ≤ s.pageRef i := by
  induction h with
  | boot s1 hk => exact kinit_nonneg c hc hk
  | alloc s1 _ ih =>
      intro i
      cases hfl : s1.freelist with
      | nil =>
          rw [kalloc_nil hfl]
          exact ih i
      | cons r rest =>
          rw [kalloc_cons hfl]
          show 0 ≤ upd s1.pageRef (PA2PGREF_ID r) 1 i
          unfold upd
          split
          · decide
          · exact ih i
  | free s1 s' pa _ hguard hkf ih =>
      intro i
      rw [kfree_pageRef c s1 s' pa hkf]
      unfold upd
      split
      · omega
      · exact ih i
  | ref s1 pa _ ih =>
      intro i
      show 0 ≤ (krefpage c s1 pa).2.pageRef i
      unfold krefpage
      split
      · exact ih i
      · show 0 ≤ upd s1.pageRef (PA2PGREF_ID pa) (s1.pageRef (PA2PGREF_ID pa) + 1) i
        unfold upd
        split
        · have := ih (PA2PGREF_ID pa)
          omega
        · exact ih i
  | cow s1 pte0 mapok o _ hguard hcc ih =>
      intro i
      by_cases h1 : s1.pageRef (PA2PGREF_ID (PTE2PA pte0)) = 1
      · rw [cow_copy_fast c s1 pte0 mapok h1] at hcc
        cases hcc
        exact ih i
      · cases hfl : s1.freelist with
        | nil =>
            rw [cow_copy_oom c s1 pte0 mapok h1 hfl] at hcc
            cases hcc
            exact ih i
        | cons newpa rest =>
            have hmidref : ∀ j, 0 ≤ (cowMid s1 pte0 newpa rest).pageRef j := by
              intro j
              show 0 ≤ upd s1.pageRef (PA2PGREF_ID newpa) 1 j
              unfold upd
              split
              · decide
              · exact ih j
            have hmidval : ∀ q, 0 < s1.pageRef (PA2PGREF_ID q) →
                ∀ t, kfree c (cowMid s1 pte0 newpa rest) q = some t →
                  0 ≤ t.pageRef i := by
              intro q hq t hkf
              rw [kfree_pageRef c _ t q hkf]
              unfold upd
              split
              · show 0 ≤ upd s1.pageRef (PA2PGREF_ID newpa) 1 (PA2PGREF_ID q) - 1
                unfold upd
                split
                · decide
                · omega
              · exact hmidref i
            cases mapok with
            | true =>
                rw [cow_copy_slow_map_true c s1 pte0 h1 hfl] at hcc
                cases hkf : kfree c (cowMid s1 pte0 newpa rest)
                    (PGROUNDDOWN (PTE2PA pte0)) with
                | none =>
                    rw [hkf] at hcc
                    exact Option.noConfusion hcc
                | some s3 =>
                    rw [hkf] at hcc
                    cases hcc
                    show 0 ≤ s3.pageRef i
                    refine hmidval _ ?_ s3 hkf
                    rw [PGROUNDDOWN_eq_self (PTE2PA_mod pte0)]
                    exact hguard
            | false =>
                rw [cow_copy_slow_map_false c s1 pte0 h1 hfl] at hcc
                cases hkf : kfree c (cowMid s1 pte0 newpa rest) newpa with
                | none =>
                    rw [hkf] at hcc
                    exact Option.noConfusion hcc
                | some s3 =>
                    rw [hkf] at hcc
                    cases hcc
                    show 0 ≤ s3.pageRef i
                    rw [kfree_pageRef c _ s3 newpa hkf]
                    unfold upd
                    split
                    · show 0 ≤ upd s1.pageRef (PA2PGREF_ID newpa) 1 (PA2PGREF_ID newpa) - 1
                      rw [upd_same]
                      decide
                    · exact hmidref i

/-- Witness for the amended C6: the boot state of the small layout is
reachable and its frame-1 count is nonnegative. -/
theorem claim_C6_amended_witness :
    KERNBASE ≤ cfg6.kernend ∧ 0 ≤ boot6.pageRef 1 :=
  ⟨by decide,
   claim_C6_amended cfg6 (by decide) boot6 (ReachG.boot boot6 (by rfl)) 1⟩

end KAlloc

namespace BCache

theorem scanBucket_inr_refcnt (bufs : List Buf) (dev blockno : Nat) (r : Bool) :
    ∀ (l : List Nat) (minb : Option Nat) (mints : Nat),
      (∀ m, minb = some m → rcOf bufs m = 0) →
      ∀ v, scanBucket bufs l r dev blockno minb mints = Sum.inr (some v) →
        rcOf bufs v = 0 := by
  intro l
  induction l with
  | nil =>
      intro minb mints hm v h
      injection h with h1
      exact hm v h1
  | cons i rest ih =>
      intro minb mints hm v h
      unfold scanBucket at h
      split at h
      · exact Sum.noConfusion h
      · split at h
        · rename_i hcand
          exact ih (some i) _ (fun m hm2 => by cases hm2; exact hcand.1) v h
        · exact ih minb mints hm v h

theorem evictLoop_zero_eq (NBUCKET : Nat) (c : Cache) (dev blockno idx : Nat) :
    evictLoop NBUCKET c dev blockno 0 idx = none := rfl

theorem evictLoop_succ_eq (NBUCKET : Nat) (c : Cache) (dev blockno fuel idx : Nat) :
    evictLoop NBUCKET c dev blockno (fuel + 1) idx
      = match scanBucket c.bufs (c.buckets.getD idx []) (idx = blockno % NBUCKET)
            dev blockno none UINTMAX with
        | Sum.inl i =>
            some (i, { c with bufs := c.bufs.set i (bumpRef (c.bufs.getD i default)) },
                  GPath.raceHit)
        | Sum.inr (some v) =>
            if idx = blockno % NBUCKET then
              some (v,
                    { c with bufs := c.bufs.set v (rekey (c.bufs.getD v default) dev blockno) },
                    GPath.evict)
            else
              some (v,
                    { c with
                      bufs := c.bufs.set v (rekey (c.bufs.getD v default) dev blockno)
                      buckets :=
                        (c.buckets.set idx ((c.buckets.getD idx []).erase v)).set
                          (blockno % NBUCKET)
                          (v :: ((c.buckets.set idx ((c.buckets.getD idx []).erase v)).getD
                                 (blockno % NBUCKET) [])) },
                    GPath.evict)
        | Sum.inr none =>
            evictLoop NBUCKET c dev blockno fuel ((idx + 1) % NBUCKET) := rfl

theorem evictLoop_evict_refcnt (NBUCKET : Nat) (c : Cache) (dev blockno : Nat) :
    ∀ (fuel idx v : Nat) (c' : Cache),
      evictLoop NBUCKET c dev blockno fuel idx = some (v, c', GPath.evict) →
      rcOf c.bufs v = 0 := by
  intro fuel
  induction fuel with
  | zero =>
      intro idx v c' h
      exact Option.noConfusion h
  | succ fuel ih =>
      intro idx v c' h
      rw [evictLoop_succ_eq] at h
      cases hsb : scanBucket c.bufs (c.buckets.getD idx []) (idx = blockno % NBUCKET)
          dev blockno none UINTMAX with
      | inl i =>
          rw [hsb] at h
          dsimp only at h
          simp at h
      | inr ov =>
          cases ov with
          | none =>
              rw [hsb] at h
              dsimp only at h
              exact ih _ v c' h
          | some w =>
              rw [hsb] at h
              dsimp only at h
              have hw : rcOf c.bufs w = 0 :=
                scanBucket_inr_refcnt c.bufs dev blockno _ _ none UINTMAX
                  (fun m hm => Option.noConfusion hm) w hsb
              split at h <;>
                · simp only [Option.some.injEq, Prod.mk.injEq] at h
                  rw [← h.1]
                  exact hw

/-- C7: a buffer handed out by bget through the eviction path had
refcnt = 0 in the cache at the moment it was selected and re-keyed;
buffers with positive refcnt are never evicted or re-keyed. -/
theorem claim_C7 (NBUF NBUCKET : Nat) (c : Cache) (dev blockno : Nat)
    (v : Nat) (c' : Cache)
    (h : bget NBUF NBUCKET c dev blockno = some (v, c', GPath.evict)) :
    rcOf c.bufs v = 0 := by
  unfold bget at h
  cases hfind : findKey c.bufs (c.buckets.getD (blockno % NBUCKET) []) dev blockno with
  | some i =>
      rw [hfind] at h
      dsimp only at h
      simp at h
  | none =>
      rw [hfind] at h
      dsimp only at h
      split at h
      · simp at h
      · exact evictLoop_evict_refcnt NBUCKET c dev blockno NBUCKET _ v c' h

/-- Witness for C7: a fully claimed one-buffer pool; the eviction picks
its single unreferenced buffer. -/
theorem claim_C7_witness :
    bget 1 1 c7cache 0 1 = some (0, c7after, GPath.evict)
    ∧ rcOf c7cache.bufs 0 = 0 :=
  ⟨by decide, claim_C7 1 1 c7cache 0 1 0 c7after (by decide)⟩

/-- C8: on the NBUF = 4, NBUCKET = 2 pool, reading blocks (0,1) (0,2)
(0,3) (0,4) fills four fresh slots with zero evictions; after releasing
all four in order and reading (0,5), exactly the buffer with the oldest
release timestamp (slot 0, holding block 1) is evicted and re-keyed, and
the final cache holds exactly 4 valid buffers with no duplicate keys. -/
theorem claim_C8 :
    (c8run.map (fun r => r.1))
      = some [GPath.fresh, GPath.fresh, GPath.fresh, GPath.fresh, GPath.evict]
    ∧ (c8run.map (fun r => r.2.1)) = some 0
    ∧ (c8run.map (fun r => rcOf r.2.2.1.bufs 0)) = some 0
    ∧ (c8run.map (fun r => (r.2.2.1.bufs.getD 0 default).blockno)) = some 1
    ∧ (c8run.map (fun r => decide (oldestFree r.2.2.1 0))) = some true
    ∧ (c8run.map (fun r => (r.2.2.2.bufs.getD 0 default).blockno)) = some 5
    ∧ (c8run.map (fun r => validCount r.2.2.2)) = some 4
    ∧ (c8run.map (fun r => decide (validKeys r.2.2.2).Nodup)) = some true := by
  refine ⟨by decide, by decide, by decide, by decide, by decide, by decide, by decide,
    by decide⟩

end BCache

namespace BCache

theorem scanBucket_acc_ne_none (bufs : List Buf) (dev blockno : Nat) (r : Bool) :
    ∀ (l : List Nat) (m mints : Nat),
      scanBucket bufs l r dev blockno (some m) mints ≠ Sum.inr none := by
  intro l
  induction l with
  | nil =>
      intro m mints h
      injection h with h1
      exact Option.noConfusion h1
  | cons i rest ih =>
      intro m mints h
      unfold scanBucket at h
      split at h
      · exact Sum.noConfusion h
      · split at h
        · exact ih i _ h
        · exact ih m mints h

theorem scanBucket_acc_min (bufs : List Buf) (dev blockno : Nat) (r : Bool) :
    ∀ (l : List Nat) (m v : Nat),
      scanBucket bufs l r dev blockno (some m) (tsOf bufs m) = Sum.inr (some v) →
      (v = m ∧ ∀ i ∈ l, rcOf bufs i = 0 → tsOf bufs m ≤ tsOf bufs i)
      ∨ (rcOf bufs v = 0 ∧ tsOf bufs v < tsOf bufs m
         ∧ (∀ i ∈ l, rcOf bufs i = 0 → tsOf bufs v ≤ tsOf bufs i)
         ∧ ∃ l1 l2, l = l1 ++ v :: l2
             ∧ ∀ i ∈ l1, rcOf bufs i = 0 → tsOf bufs v < tsOf bufs i) := by
  intro l
  induction l with
  | nil =>
      intro m v h
      injection h with h1
      injection h1 with h2
      refine Or.inl ⟨h2.symm, ?_⟩
      intro i hi
      exact absurd hi (List.not_mem_nil i)
  | cons i rest ih =>
      intro m v h
      unfold scanBucket at h
      split at h
      · exact Sum.noConfusion h
      · split at h
        · rename_i hcand
          rcases ih i v h with ⟨hv, hall⟩ | ⟨hrc, hlt, hmin, l1, l2, hdec, hfirst⟩
          · subst hv
            refine Or.inr ⟨hcand.1, hcand.2, ?_, [], rest, rfl, ?_⟩
            · intro j hj hjrc
              rcases List.mem_cons.mp hj with hji | hjr
              · subst hji
                exact le_refl _
              · exact hall j hjr hjrc
            · intro j hj
              exact absurd hj (List.not_mem_nil j)
          · refine Or.inr ⟨hrc, lt_trans hlt hcand.2, ?_, i :: l1, l2, by rw [hdec, List.cons_append], ?_⟩
            · intro j hj hjrc
              rcases List.mem_cons.mp hj with hji | hjr
              · subst hji
                exact le_of_lt hlt
              · exact hmin j hjr hjrc
            · intro j hj hjrc
              rcases List.mem_cons.mp hj with hji | hjr
              · subst hji
                exact hlt
              · exact hfirst j hjr hjrc
        · rename_i hncand
          rcases ih m v h with ⟨hv, hall⟩ | ⟨hrc, hlt, hmin, l1, l2, hdec, hfirst⟩
          · refine Or.inl ⟨hv, ?_⟩
            intro j hj hjrc
            rcases List.mem_cons.mp hj with hji | hjr
            · subst hji
              exact le_of_not_lt (fun h2 => hncand ⟨hjrc, h2⟩)
            · exact hall j hjr hjrc
          · refine Or.inr ⟨hrc, hlt, ?_, i :: l1, l2, by rw [hdec, List.cons_append], ?_⟩
            · intro j hj hjrc
              rcases List.mem_cons.mp hj with hji | hjr
              · subst hji
                exact le_of_lt (lt_of_lt_of_le hlt
                  (le_of_not_lt (fun h2 => hncand ⟨hjrc, h2⟩)))
              · exact hmin j hjr hjrc
            · intro j hj hjrc
              rcases List.mem_cons.mp hj with hji | hjr
              · subst hji
                exact lt_of_lt_of_le hlt (le_of_not_lt (fun h2 => hncand ⟨hjrc, h2⟩))
              · exact hfirst j hjr hjrc

theorem scanBucket_none_min (bufs : List Buf) (dev blockno : Nat) (r : Bool) :
    ∀ (l : List Nat) (M v : Nat),
      scanBucket bufs l r dev blockno none M = Sum.inr (some v) →
      rcOf bufs v = 0 ∧ tsOf bufs v < M
      ∧ (∀ i ∈ l, rcOf bufs i = 0 → tsOf bufs v ≤ tsOf bufs i)
      ∧ ∃ l1 l2, l = l1 ++ v :: l2
          ∧ ∀ i ∈ l1, rcOf bufs i = 0 → tsOf bufs v < tsOf bufs i := by
  intro l
  induction l with
  | nil =>
      intro M v h
      injection h with h1
      exact Option.noConfusion h1
  | cons i rest ih =>
      intro M v h
      unfold scanBucket at h
      split at h
      · exact Sum.noConfusion h
      · split at h
        · rename_i hcand
          rcases scanBucket_acc_min bufs dev blockno r rest i v h with
            ⟨hv, hall⟩ | ⟨hrc, hlt, hmin, l1, l2, hdec, hfirst⟩
          · subst hv
            refine ⟨hcand.1, hcand.2, ?_, [], rest, rfl, ?_⟩
            · intro j hj hjrc
              rcases List.mem_cons.mp hj with hji | hjr
              · subst hji
                exact le_refl _
              · exact hall j hjr hjrc
            · intro j hj
              exact absurd hj (List.not_mem_nil j)
          · refine ⟨hrc, lt_trans hlt hcand.2, ?_, i :: l1, l2, by rw [hdec, List.cons_append], ?_⟩
            · intro j hj hjrc
              rcases List.mem_cons.mp hj with hji | hjr
              · subst hji
                exact le_of_lt hlt
              · exact hmin j hjr hjrc
            · intro j hj hjrc
              rcases List.mem_cons.mp hj with hji | hjr
              · subst hji
                exact hlt
              · exact hfirst j hjr hjrc
        · rename_i hncand
          obtain ⟨hrc, hlt, hmin, l1, l2, hdec, hfirst⟩ := ih M v h
          have hbound : ∀ j, j = i → rcOf bufs j = 0 → tsOf bufs v < tsOf bufs j := by
            intro j hji hjrc
            subst hji
            exact lt_of_lt_of_le hlt (le_of_not_lt (fun h2 => hncand ⟨hjrc, h2⟩))
          refine ⟨hrc, hlt, ?_, i :: l1, l2, by rw [hdec, List.cons_append], ?_⟩
          · intro j hj hjrc
            rcases List.mem_cons.mp hj with hji | hjr
            · exact le_of_lt (hbound j hji hjrc)
            · exact hmin j hjr hjrc
          · intro j hj hjrc
            rcases List.mem_cons.mp hj with hji | hjr
            · exact hbound j hji hjrc
            · exact hfirst j hjr hjrc

theorem scanBucket_none_none (bufs : List Buf) (dev blockno : Nat) (r : Bool) :
    ∀ (l : List Nat) (M : Nat),
      scanBucket bufs l r dev blockno none M = Sum.inr none →
      ∀ i ∈ l, rcOf bufs i = 0 → M ≤ tsOf bufs i := by
  intro l
  induction l with
  | nil =>
      intro M _ i hi
      exact absurd hi (List.not_mem_nil i)
  | cons i rest ih =>
      intro M h j hj hjrc
      unfold scanBucket at h
      split at h
      · exact Sum.noConfusion h
      · split at h
        · exact absurd h (scanBucket_acc_ne_none bufs dev blockno r rest i _)
        · rename_i hncand
          rcases List.mem_cons.mp hj with hji | hjr
          · subst hji
            exact le_of_not_lt (fun h2 => hncand ⟨hjrc, h2⟩)
          · exact ih M h j hjr hjrc

end BCache

namespace BCache

theorem evictLoop_spec (NBUCKET : Nat) (c : Cache) (dev blockno : Nat) :
    ∀ (fuel idx : Nat), idx < NBUCKET →
      ∀ (v : Nat) (c' : Cache),
        evictLoop NBUCKET c dev blockno fuel idx = some (v, c', GPath.evict) →
        ∃ j, j < fuel
          ∧ (∀ j2, j2 < j → ∀ i ∈ c.buckets.getD ((idx + j2) % NBUCKET) [],
              rcOf c.bufs i = 0 → UINTMAX ≤ tsOf c.bufs i)
          ∧ rcOf c.bufs v = 0
          ∧ tsOf c.bufs v < UINTMAX
          ∧ (∀ i ∈ c.buckets.getD ((idx + j) % NBUCKET) [],
              rcOf c.bufs i = 0 → tsOf c.bufs v ≤ tsOf c.bufs i)
          ∧ ∃ l1 l2, c.buckets.getD ((idx + j) % NBUCKET) [] = l1 ++ v :: l2
              ∧ ∀ i ∈ l1, rcOf c.bufs i = 0 → tsOf c.bufs v < tsOf c.bufs i := by
  intro fuel
  induction fuel with
  | zero =>
      intro idx _ v c' h
      exact Option.noConfusion h
  | succ fuel ih =>
      intro idx hidx v c' h
      have hN : 0 < NBUCKET := lt_of_le_of_lt (Nat.zero_le _) hidx
      rw [evictLoop_succ_eq] at h
      cases hsb : scanBucket c.bufs (c.buckets.getD idx []) (idx = blockno % NBUCKET)
          dev blockno none UINTMAX with
      | inl i =>
          rw [hsb] at h
          dsimp only at h
          simp at h
      | inr ov =>
          cases ov with
          | some w =>
              rw [hsb] at h
              dsimp only at h
              obtain ⟨hrc, hlt, hmin, l1, l2, hdec, hfirst⟩ :=
                scanBucket_none_min c.bufs dev blockno _ _ UINTMAX w hsb
              have hw : w = v := by
                split at h <;>
                  · simp only [Option.some.injEq, Prod.mk.injEq] at h
                    exact h.1
              subst hw
              have hid0 : (idx + 0) % NBUCKET = idx := by
                rw [Nat.add_zero]
                exact Nat.mod_eq_of_lt hidx
              refine ⟨0, Nat.succ_pos _, ?_, hrc, hlt, ?_, ?_⟩
              · intro j2 hj2
                exact absurd hj2 (Nat.not_lt_zero _)
              · rw [hid0]
                exact hmin
              · rw [hid0]
                exact ⟨l1, l2, hdec, hfirst⟩
          | none =>
              rw [hsb] at h
              dsimp only at h
              have hidx2 : (idx + 1) % NBUCKET < NBUCKET := Nat.mod_lt _ hN
              obtain ⟨j, hj, hearly, hrc, hlt, hmin, l1, l2, hdec, hfirst⟩ :=
                ih ((idx + 1) % NBUCKET) hidx2 v c' h
              have hrot : ∀ k, ((idx + 1) % NBUCKET + k) % NBUCKET
                  = (idx + (k + 1)) % NBUCKET := by
                intro k
                rw [Nat.mod_add_mod]
                congr 1
                omega
              refine ⟨j + 1, Nat.succ_lt_succ hj, ?_, hrc, hlt, ?_, ?_⟩
              · intro j2 hj2 i hi hirc
                cases j2 with
                | zero =>
                    have hid0 : (idx + 0) % NBUCKET = idx := by
                      rw [Nat.add_zero]
                      exact Nat.mod_eq_of_lt hidx
                    rw [hid0] at hi
                    exact scanBucket_none_none c.bufs dev blockno _ _ UINTMAX hsb i hi hirc
                | succ j2 =>
                    have hj2' : j2 < j := by omega
                    refine hearly j2 hj2' i ?_ hirc
                    rw [hrot j2]
                    exact hi
              · rw [← hrot j]
                exact hmin
              · rw [← hrot j]
                exact ⟨l1, l2, hdec, hfirst⟩

/-- C10 counterexample: with two buckets and a fully claimed pool, the
target bucket (bucket 0 for block 2) contains an unreferenced buffer
(index 0), yet because that buffer's timestamp equals the scan's sentinel
initial minimum (uint)-1, the eviction skips the bucket and selects the
buffer of the other bucket instead. -/
theorem claim_C10_counterexample :
    (bget 2 2 c10cex 0 2).map (fun r => (r.1, r.2.2)) = some (1, GPath.evict)
    ∧ rcOf c10cex.bufs 0 = 0
    ∧ 0 ∈ c10cex.buckets.getD (2 % 2) []
    ∧ ¬ 1 ∈ c10cex.buckets.getD (2 % 2) [] := by
  refine ⟨by decide, by decide, by decide, by decide⟩

/-- C10 (amended): when the pool is fully claimed, bget's eviction picks
its victim per bucket, visiting buckets round-robin from the target one:
every earlier-visited bucket has no refcnt == 0 buffer with timestamp
below the sentinel (uint)-1, and within the first bucket that does, the
victim is the minimum-timestamp such buffer, ties broken in favor of the
buffer encountered first in list order. -/
theorem claim_C10_amended (NBUF NBUCKET : Nat) (c : Cache) (dev blockno : Nat)
    (v : Nat) (c' : Cache) (hN : 0 < NBUCKET)
    (h : bget NBUF NBUCKET c dev blockno = some (v, c', GPath.evict)) :
    ∃ j, j < NBUCKET
      ∧ (∀ j2, j2 < j → ∀ i ∈ c.buckets.getD ((blockno % NBUCKET + j2) % NBUCKET) [],
          rcOf c.bufs i = 0 → UINTMAX ≤ tsOf c.bufs i)
      ∧ rcOf c.bufs v = 0
      ∧ tsOf c.bufs v < UINTMAX
      ∧ (∀ i ∈ c.buckets.getD ((blockno % NBUCKET + j) % NBUCKET) [],
          rcOf c.bufs i = 0 → tsOf c.bufs v ≤ tsOf c.bufs i)
      ∧ ∃ l1 l2, c.buckets.getD ((blockno % NBUCKET + j) % NBUCKET) [] = l1 ++ v :: l2
          ∧ ∀ i ∈ l1, rcOf c.bufs i = 0 → tsOf c.bufs v < tsOf c.bufs i := by
  unfold bget at h
  cases hfind : findKey c.bufs (c.buckets.getD (blockno % NBUCKET) []) dev blockno with
  | some i =>
      rw [hfind] at h
      dsimp only at h
      simp at h
  | none =>
      rw [hfind] at h
      dsimp only at h
      split at h
      · simp at h
      · exact evictLoop_spec NBUCKET c dev blockno NBUCKET (blockno % NBUCKET)
          (Nat.mod_lt _ hN) v c' h

/-- Witness for the amended C10: a three-buffer pool whose target bucket
holds two unreferenced buffers (timestamps 9 and 6) while an older one
(timestamp 3) sits in the other bucket; the eviction still picks the
minimum of the target bucket, buffer 1. -/
theorem claim_C10_amended_witness :
    ((0 : Nat) < 2 ∧ bget 3 2 c10wit 0 4 = some (1, c10witAfter, GPath.evict))
    ∧ (∃ j, j < 2
        ∧ (∀ j2, j2 < j → ∀ i ∈ c10wit.buckets.getD ((4 % 2 + j2) % 2) [],
            rcOf c10wit.bufs i = 0 → UINTMAX ≤ tsOf c10wit.bufs i)
        ∧ rcOf c10wit.bufs 1 = 0
        ∧ tsOf c10wit.bufs 1 < UINTMAX
        ∧ (∀ i ∈ c10wit.buckets.getD ((4 % 2 + j) % 2) [],
            rcOf c10wit.bufs i = 0 → tsOf c10wit.bufs 1 ≤ tsOf c10wit.bufs i)
        ∧ ∃ l1 l2, c10wit.buckets.getD ((4 % 2 + j) % 2) [] = l1 ++ 1 :: l2
            ∧ ∀ i ∈ l1, rcOf c10wit.bufs i = 0 → tsOf c10wit.bufs 1 < tsOf c10wit.bufs i) :=
  ⟨⟨by decide, by decide⟩,
   claim_C10_amended 3 2 c10wit 0 4 1 c10witAfter (by decide) (by decide)⟩

end BCache
